import Mathlib

/-!
Verification of the `githd` source-control model (`src/model.ts`).

The file shallowly embeds the data model and operations of `model.ts`:
the status-line parser (`Resource.parseInfoLine`), the log tokenizer
(`Model.getLogEntries`), the commit-diff retrieval (`Model._updateResources`
and `Model.update`), the commit counter (`Model.getCommitsCount`) and the
subprocess text collector (`runGitCommand`).

Strings are modelled as `List Char`; JavaScript `undefined` string fields are
modelled as `Option (List Char)` with `none` for `undefined`.  A thrown
JavaScript exception is modelled with `Except JsError`.
-/

set_option maxRecDepth 40000

instance {ε α : Type} [DecidableEq ε] [DecidableEq α] : DecidableEq (Except ε α) := fun x y =>
  match x, y with
  | .ok a, .ok b =>
    if h : a = b then isTrue (by rw [h]) else isFalse (by intro hc; cases hc; exact h rfl)
  | .error a, .error b =>
    if h : a = b then isTrue (by rw [h]) else isFalse (by intro hc; cases hc; exact h rfl)
  | .ok _, .error _ => isFalse (by intro hc; cases hc)
  | .error _, .ok _ => isFalse (by intro hc; cases hc)

/-- A JavaScript exception: either an explicit `throw new Error(msg)` or an
implicit `TypeError` raised by operating on `undefined`. -/
inductive JsError where
  | thrown (msg : List Char)
  | typeError
deriving DecidableEq

/-- Model of JavaScript `String.prototype.split` with the single-character
separator `'\t'` (the source uses `info.split(/\t/g)`): `""` splits to
`[""]`, separators at the ends produce empty fields. -/
def splitTab : List Char → List (List Char)
  | [] => [[]]
  | c :: rest =>
    if c = '\t' then [] :: splitTab rest
    else
      match splitTab rest with
      | [] => [[c]]
      | f :: fs => (c :: f) :: fs

/-- Model of JavaScript `String.prototype.split` on the regex `/\r?\n/g`
(used by `Model._updateResources`): each `"\r\n"` or lone `"\n"` is a
separator; a lone `'\r'` is ordinary content. -/
def splitLines : List Char → List (List Char)
  | [] => [[]]
  | '\r' :: '\n' :: rest => [] :: splitLines rest
  | '\n' :: rest => [] :: splitLines rest
  | c :: rest =>
    match splitLines rest with
    | [] => [[c]]
    | f :: fs => (c :: f) :: fs

/-- Fuelled worker for `splitOnSep`; fuel bounds the number of consumed
positions, and `splitOnSep` supplies enough fuel for the whole input, so the
`0`-fuel fallback is never reached on the inputs we use. -/
def splitOnSepFuel (sep : List Char) : Nat → List Char → List (List Char)
  | _, [] => [[]]
  | 0, s => [s]
  | fuel + 1, c :: rest =>
    if (c :: rest).take sep.length = sep then
      [] :: splitOnSepFuel sep fuel (List.drop (sep.length - 1) rest)
    else
      match splitOnSepFuel sep fuel rest with
      | [] => [[c]]
      | f :: fs => (c :: f) :: fs

/-- Model of JavaScript `String.prototype.split` with a non-empty multi-character
separator string (used by `Model.getLogEntries` with the two sentinel
strings): splits on the non-overlapping left-to-right occurrences of `sep`. -/
def splitOnSep (sep s : List Char) : List (List Char) :=
  splitOnSepFuel sep s.length s

/-- A parsed `vscode.Uri`; only the filesystem path is relevant here. -/
structure Uri where
  fsPath : List Char
deriving DecidableEq

/-- Models `workspace.rootPath`, the host-provided workspace root. -/
def rootPath : List Char := ('/' :: 'w' :: 's' :: [])

/-- Model of `createUri`: `path.join(workspace.rootPath, relativePath)` wrapped
in `Uri.file`.  `path.join` applied to `undefined` throws a `TypeError` in
Node; on a defined path it is modelled as separator concatenation (no claim
inspects `path.join` normalisation). -/
def createUri (relativePath : Option (List Char)) : Except JsError Uri :=
  match relativePath with
  | none => .error .typeError
  | some rel => .ok ⟨rootPath ++ '/' :: rel⟩

/-- The state of a constructed `Resource`: the private fields `_file`,
`_resourceUri`, `_status`.  Each starts out `undefined` (`none`) and is only
assigned by `parseInfoLine`. -/
structure Resource where
  file : Option (List Char)
  resourceUri : Option Uri
  status : Option (List Char)
deriving DecidableEq

/-- The tail of `Resource.parseInfoLine` after the `switch`:
`this._resourceUri = createUri(this._file); this._status = contents[0];`. -/
def setUriAndStatus (contents : List (List Char)) (file : Option (List Char)) :
    Except JsError Resource :=
  match createUri file with
  | .error e => .error e
  | .ok uri => .ok { file := file, resourceUri := some uri, status := some (contents.headD []) }

/-- Model of `Resource.parseInfoLine` (hence of the `Resource` constructor).
Splits on tabs; with fewer than two fields it returns early, leaving every
field `undefined`; otherwise it switches on the upper-cased first character of
the first field (`contents[0][0].toLocaleUpperCase()`, a `TypeError` when the
first field is empty; `Char.toUpper` agrees with `toLocaleUpperCase` on the
ASCII codes compared here), takes `contents[1]` for M/A/D and `contents[2]`
for R/C, and throws `Error('Cannot parse ' + info)` on any other code. -/
def parseInfoLine (info : List Char) : Except JsError Resource :=
  let contents := splitTab info
  if contents.length < 2 then
    .ok { file := none, resourceUri := none, status := none }
  else
    match (contents.headD []).head? with
    | none => .error .typeError
    | some c =>
      if c.toUpper = 'M' ∨ c.toUpper = 'A' ∨ c.toUpper = 'D' then
        setUriAndStatus contents contents[1]?
      else if c.toUpper = 'R' ∨ c.toUpper = 'C' then
        setUriAndStatus contents contents[2]?
      else
        .error (.thrown ("Cannot parse ".toList ++ info))

example : parseInfoLine ('M' :: '\t' :: 'a' :: []) =
    .ok { file := some ['a'], resourceUri := some ⟨rootPath ++ ['/', 'a']⟩,
          status := some ['M'] } := by decide

example : parseInfoLine ('x' :: 'y' :: []) =
    .ok { file := none, resourceUri := none, status := none } := by decide

example : parseInfoLine ('R' :: '1' :: '\t' :: 'a' :: []) = .error .typeError := by decide

example : parseInfoLine ('Z' :: '\t' :: 'a' :: []) =
    .error (.thrown ("Cannot parse Z\ta".toList)) := by decide

/-- One commit summary, as pushed by `Model.getLogEntries`.  The six locals
`subject`, `hash`, `ref`, `author`, `email`, `date` are declared with `let`
per entry fragment and are `undefined` (`none`) until assigned. -/
structure LogEntry where
  subject : Option (List Char)
  hash : Option (List Char)
  ref : Option (List Char)
  author : Option (List Char)
  email : Option (List Char)
  date : Option (List Char)
deriving DecidableEq

/-- The six locals of `getLogEntries` at declaration time, all `undefined`. -/
def initialVars : LogEntry :=
  { subject := none, hash := none, ref := none, author := none, email := none, date := none }

/-- The entry-delimiting sentinel of `Model.getLogEntries`. -/
def entrySeparator : List Char := "471a2a19-885e-47f8-bff3-db43a3cdfaed".toList

/-- The field-delimiting sentinel of `Model.getLogEntries`. -/
def itemSeparator : List Char := "e69fde18-a303-4529-963d-f5b63b7b1664".toList

/-- The body of the inner `forEach((value, index) => ...)` of
`Model.getLogEntries`: index 0 is discarded, then the decremented index mod 6
selects which local to assign; at remainder 5 the six locals are pushed as a
`LogEntry`. -/
def processItem (acc : LogEntry × List LogEntry) (p : Nat × List Char) :
    LogEntry × List LogEntry :=
  let (vars, out) := acc
  let (index, value) := p
  if index = 0 then
    (vars, out)
  else
    match (index - 1) % 6 with
    | 0 => ({ vars with subject := some value }, out)
    | 1 => ({ vars with hash := some value }, out)
    | 2 => ({ vars with ref := some value }, out)
    | 3 => ({ vars with author := some value }, out)
    | 4 => ({ vars with email := some value }, out)
    | _ =>
      let vars := { vars with date := some value }
      (vars, out ++ [vars])

/-- The body of the outer `forEach(entry => ...)` of `Model.getLogEntries`:
a falsy (empty) fragment is skipped, otherwise the fragment is split on
`itemSeparator` and folded through `processItem` with fresh locals. -/
def processEntry (entry : List Char) : List LogEntry :=
  if entry = [] then []
  else (((splitOnSep itemSeparator entry).enum).foldl processItem (initialVars, [])).2

/-- Model of the `endAction` callback of `Model.getLogEntries`, applied to the
full buffered subprocess output: split on `entrySeparator`, process each
fragment in order, accumulating pushed entries in order. -/
def getLogEntriesOf (content : List Char) : List LogEntry :=
  (splitOnSep entrySeparator content).foldl (fun acc entry => acc ++ processEntry entry) []

/-- Hexadecimal digit test for the `0x` branch of `parseInt`. -/
def isHexDigit (c : Char) : Bool :=
  c.isDigit || ('a' ≤ c ∧ c ≤ 'f') || ('A' ≤ c ∧ c ≤ 'F')

/-- Numeric value of a hexadecimal digit. -/
def hexDigitVal (c : Char) : Nat :=
  if c.isDigit then c.toNat - 48
  else if 'a' ≤ c ∧ c ≤ 'f' then c.toNat - 87
  else c.toNat - 55

/-- Magnitude of the longest leading run of base-`10` digits; `none` when
there is no leading digit (`parseInt` returns `NaN` then). -/
def decParse (s : List Char) : Option Nat :=
  match s.takeWhile Char.isDigit with
  | [] => none
  | ds => some (ds.foldl (fun acc c => acc * 10 + (c.toNat - 48)) 0)

/-- Magnitude of the longest leading run of base-`16` digits. -/
def hexParse (s : List Char) : Option Nat :=
  match s.takeWhile isHexDigit with
  | [] => none
  | ds => some (ds.foldl (fun acc c => acc * 16 + hexDigitVal c) 0)

/-- Model of JavaScript `parseInt(s)` with no radix argument: trim leading
whitespace, read an optional sign, then a `0x`/`0X` hexadecimal or a decimal
digit run; with no digit the result is `NaN`, modelled as `none`.  (JS returns
a float and loses precision above 2^53; the inputs here are far smaller.) -/
def jsParseInt (s : List Char) : Option Int :=
  let t := s.dropWhile Char.isWhitespace
  let signAndRest : Bool × List Char :=
    match t with
    | '-' :: rest => (true, rest)
    | '+' :: rest => (false, rest)
    | rest => (false, rest)
  let mag : Option Nat :=
    match signAndRest.2 with
    | '0' :: 'x' :: rest => hexParse rest
    | '0' :: 'X' :: rest => hexParse rest
    | rest => decParse rest
  mag.map (fun n => if signAndRest.1 then -(n : Int) else (n : Int))

/-- Model of `Model.getCommitsCount`: the `rev-list --count HEAD` output is fed
to `parseInt` and the result is returned as-is — `none` models returning the
float `NaN`; there is no error path, the promise resolves either way. -/
def getCommitsCountOf (content : List Char) : Option Int :=
  jsParseInt content

example : getCommitsCountOf "42\n".toList = some 42 := by decide
example : getCommitsCountOf "abc".toList = none := by decide
example : getLogEntriesOf [] = [] := by decide

/-- An event delivered on the child process's stdout stream, in delivery
order: a `data` chunk, the `end` of the readable side, a stream `error`
(carrying the error value, modelled by its message), or the `close` of the
stream. -/
inductive StreamEvent where
  | data (chunk : List Char)
  | streamEnd
  | streamError (msg : List Char)
  | close
deriving DecidableEq

/-- The settlement of the promise returned by `runGitCommand`: a promise
settles at most once; later `resolve`/`reject` calls are ignored. -/
inductive Settled where
  | pending
  | resolved
  | rejected (msg : List Char)
deriving DecidableEq

/-- `reject(err)`: settles a pending promise, otherwise does nothing. -/
def settleReject (s : Settled) (msg : List Char) : Settled :=
  match s with
  | .pending => .rejected msg
  | s => s

/-- `resolve()`: settles a pending promise, otherwise does nothing. -/
def settleResolve (s : Settled) : Settled :=
  match s with
  | .pending => .resolved
  | s => s

/-- The observable state of one `runGitCommand` call: the accumulated
`content` buffer, the promise settlement, and the arguments of the
`endAction(content)` calls made so far. -/
structure GitRunState where
  content : List Char
  settlement : Settled
  endActionCalls : List (List Char)
deriving DecidableEq

/-- The four handlers `runGitCommand` registers on stdout:
`data` appends to `content`, `end` calls `endAction(content)`,
`error` rejects with the error, `close` resolves. -/
def handleEvent (st : GitRunState) (ev : StreamEvent) : GitRunState :=
  match ev with
  | .data chunk => { st with content := st.content ++ chunk }
  | .streamEnd => { st with endActionCalls := st.endActionCalls ++ [st.content] }
  | .streamError msg => { st with settlement := settleReject st.settlement msg }
  | .close => { st with settlement := settleResolve st.settlement }

/-- Model of `runGitCommand`: the handlers folded over the stream's event
trace, starting from an empty buffer and a pending promise. -/
def runGitCommandOf (trace : List StreamEvent) : GitRunState :=
  trace.foldl handleEvent { content := [], settlement := .pending, endActionCalls := [] }

/-- An event that neither rejects nor resolves the promise. -/
def benign (ev : StreamEvent) : Bool :=
  match ev with
  | .data _ => true
  | .streamEnd => true
  | .streamError _ => false
  | .close => false

/-- The mutable fields of `Model` that the claims observe: the private `_sha`
(`undefined` until first assigned) and the published
`_resourceGroup.resourceStates` list. -/
structure ModelState where
  sha : Option (List Char)
  resourceStates : List Resource

/-- The argument list `['show', '--format=%h', '--name-status', sha]` that
`Model._updateResources` passes to the subprocess runner. -/
def gitShowArgs (sha : List Char) : List (List Char) :=
  ["show".toList, "--format=%h".toList, "--name-status".toList, sha]

/-- The loop body of `Model._updateResources`'s
`content.split(/\r?\n/g).forEach((value, index) => ...)`: index 0 records the
value as the new `_sha`; every later index above 1 with a truthy (non-empty)
value constructs a `Resource` from it (a throw aborts the iteration). -/
def updateLoop (index : Nat) (sha : Option (List Char)) (res : List Resource) :
    List (List Char) → Except JsError (Option (List Char) × List Resource)
  | [] => .ok (sha, res)
  | value :: rest =>
    let sha := if index = 0 then some value else sha
    if index > 1 ∧ value ≠ [] then
      match parseInfoLine value with
      | .error e => .error e
      | .ok r => updateLoop (index + 1) sha (res ++ [r]) rest
    else
      updateLoop (index + 1) sha res rest

/-- Model of `Model._updateResources` applied to the buffered `show` output:
returns the new `_sha` and the built resource list. -/
def updateResourcesOf (content : List Char) :
    Except JsError (Option (List Char) × List Resource) :=
  updateLoop 0 none [] (splitLines content)

/-- Model of `Model.update(sha)`.  `showOutput` is the stdout text the spawned
`git show` subprocess would deliver.  The second component of the result lists
the argument vectors of the subprocesses spawned during the call, in order.
A falsy `sha` (the empty string, for the `string`-typed parameter) publishes
the empty list and spawns nothing. -/
def update (st : ModelState) (sha showOutput : List Char) :
    Except JsError (ModelState × List (List (List Char))) :=
  if sha = [] then
    .ok ({ st with resourceStates := [] }, [])
  else
    match updateResourcesOf showOutput with
    | .error e => .error e
    | .ok (newSha, resources) =>
      .ok ({ st with sha := newSha, resourceStates := resources }, [gitShowArgs sha])

example :
    updateResourcesOf "1a2b3c4\n\nM\tf\n".toList =
      .ok (some "1a2b3c4".toList,
        [{ file := some ['f'], resourceUri := some ⟨rootPath ++ ['/', 'f']⟩,
           status := some ['M'] }]) := by decide


/-- The field the spec designates for a given status character: the third
tab-delimited field for rename/copy codes, the second for all others. -/
def expectedFile (c : Char) (fields : List (List Char)) : List Char :=
  if c.toUpper = 'R' ∨ c.toUpper = 'C' then fields.getD 2 []
  else fields.getD 1 []

/-- C1 (amended): a status line with a recognized leading code, at least two
tab-delimited fields, and at least three for rename/copy codes, parses into a
`Resource` whose `file` is the third field for rename/copy and the second
field otherwise, and whose `status` is the whole first field (so its leading
character is the recognized code). -/
theorem c1_recognized_code_parses (info : List Char) (c : Char) (cs : List Char)
    (fields : List (List Char))
    (hl : splitTab info = fields)
    (hfirst : fields.headD [] = c :: cs)
    (h2 : 2 ≤ fields.length)
    (hrec : c.toUpper ∈ (['M', 'A', 'D', 'R', 'C'] : List Char))
    (h3 : c.toUpper = 'R' ∨ c.toUpper = 'C' → 3 ≤ fields.length) :
    parseInfoLine info = .ok
      { file := some (expectedFile c fields),
        resourceUri := some ⟨rootPath ++ '/' :: expectedFile c fields⟩,
        status := some (c :: cs) } := by
  rcases fields with _ | ⟨f0, _ | ⟨f1, t⟩⟩
  · exact absurd h2 (by decide)
  · exact absurd h2 (by simp)
  · simp only [List.headD] at hfirst
    subst hfirst
    simp only [List.mem_cons, List.not_mem_nil, or_false] at hrec
    rcases hrec with h | h | h | h | h
    all_goals
      simp [parseInfoLine, hl, expectedFile, h, setUriAndStatus, createUri]
    all_goals
      rcases t with _ | ⟨f2, t2⟩
    · exact absurd (h3 (by simp [h])) (by simp)
    · simp
    · exact absurd (h3 (by simp [h])) (by simp)
    · simp

/-- C1 counterexample: the rename/copy branch takes the third field, not the
last one.  On the 4-field line `"C0\ta\tb\tc"` (recognized code `C`, at least
two tab-delimited fields) the parsed `file` is the third field `"b"` while the
last field is `"c"`. -/
theorem c1_last_field_counterexample :
    parseInfoLine "C0\ta\tb\tc".toList =
      .ok { file := some ['b'], resourceUri := some ⟨rootPath ++ ['/', 'b']⟩,
            status := some "C0".toList } ∧
    (splitTab "C0\ta\tb\tc".toList).getLast? = some ['c'] := by decide

/-- Witness for C1 at the rename line `"R100\ta\tb"`: construction succeeds,
the file is the third field and the status is the whole first field. -/
theorem c1_recognized_code_parses_witness :
    parseInfoLine "R100\ta\tb".toList =
      .ok { file := some ['b'], resourceUri := some ⟨rootPath ++ ['/', 'b']⟩,
            status := some "R100".toList } :=
  c1_recognized_code_parses "R100\ta\tb".toList 'R' "100".toList
    ["R100".toList, ['a'], ['b']] (by decide) (by decide) (by decide) (by decide) (by decide)

/-- C5: a status line with at least two tab-delimited fields whose first
field's leading character upper-cases to something outside {M,A,D,R,C} makes
`parseInfoLine` throw the hard `Error('Cannot parse ' + info)`; it neither
skips the line silently nor produces a `Resource`. -/
theorem c5_unrecognized_code_throws (info : List Char) (c : Char) (cs : List Char)
    (fields : List (List Char))
    (hl : splitTab info = fields)
    (hfirst : fields.headD [] = c :: cs)
    (h2 : 2 ≤ fields.length)
    (hrec : c.toUpper ∉ (['M', 'A', 'D', 'R', 'C'] : List Char)) :
    parseInfoLine info = .error (.thrown ("Cannot parse ".toList ++ info)) := by
  rcases fields with _ | ⟨f0, _ | ⟨f1, t⟩⟩
  · exact absurd h2 (by decide)
  · exact absurd h2 (by simp)
  · simp only [List.headD] at hfirst
    subst hfirst
    simp only [List.mem_cons, List.not_mem_nil, or_false, not_or] at hrec
    obtain ⟨hM, hA, hD, hR, hC⟩ := hrec
    simp [parseInfoLine, hl, hM, hA, hD, hR, hC]

/-- Witness for C5 at `"X\tfile"`: the parse throws `Cannot parse X\tfile`. -/
theorem c5_unrecognized_code_throws_witness :
    parseInfoLine "X\tfile".toList =
      .error (.thrown ("Cannot parse ".toList ++ "X\tfile".toList)) :=
  c5_unrecognized_code_throws "X\tfile".toList 'X' [] [['X'], "file".toList]
    (by decide) (by decide) (by decide) (by decide)

/-- C3 (the code contradicts it): on a status line with fewer than two
tab-delimited fields the `Resource` constructor returns normally — the early
`return` in `parseInfoLine` — yielding a `Resource` whose `_file`,
`_resourceUri` and `_status` are all still `undefined`, rather than rejecting
the line. -/
theorem c3_short_line_produces_undefined_resource :
    parseInfoLine "nofields".toList =
      .ok { file := none, resourceUri := none, status := none } := by decide

/-- C10: a rename line with exactly two tab-delimited fields reaches the R/C
branch, indexes the missing third field (`undefined`), and the subsequent
`createUri(undefined)` throws a `TypeError`; the `Cannot parse` branch is not
taken and no `Resource` results. -/
theorem c10_rename_two_fields_type_error :
    (splitTab "R100\told/name.ts".toList)[2]? = none ∧
    createUri none = .error .typeError ∧
    parseInfoLine "R100\told/name.ts".toList = .error .typeError := by decide

/-- C2: on subprocess output `"42\n"` `getCommitsCount` returns the integer
42; but on non-numeric output such as `"abc"` it resolves successfully with
`NaN` (modelled as `none`) — `parseInt` has no failure path and the code never
checks the result, contradicting the claimed explicit error. -/
theorem c2_commit_count_returns_nan :
    getCommitsCountOf "42\n".toList = some 42 ∧
    getCommitsCountOf "abc".toList = none := by decide

/-- C7: an empty (falsy) commit identifier always publishes the empty
resource list and spawns no subprocess — `update` short-circuits before
`runGitCommand`; the empty spawn list records that no subprocess ran. -/
theorem c7_empty_sha_clears_and_spawns_nothing (st : ModelState) (out : List Char) :
    update st [] out = .ok ({ st with resourceStates := [] }, []) := rfl

/-- Sequential `new Resource(value)` construction over a list of status
lines, propagating the first thrown exception, as the `forEach` of
`_updateResources` does. -/
def parseAll : List (List Char) → Except JsError (List Resource)
  | [] => .ok []
  | v :: rest =>
    match parseInfoLine v with
    | .error e => .error e
    | .ok r =>
      match parseAll rest with
      | .error e => .error e
      | .ok rs => .ok (r :: rs)

theorem updateLoop_from_two (rest : List (List Char)) : ∀ (n : Nat), 2 ≤ n →
    ∀ (sha : Option (List Char)) (res parsed : List Resource),
      parseAll (rest.filter (fun v => v ≠ [])) = .ok parsed →
      updateLoop n sha res rest = .ok (sha, res ++ parsed) := by
  induction rest with
  | nil =>
    intro n hn sha res parsed h
    simp only [List.filter_nil, parseAll] at h
    injection h with h
    subst h
    simp [updateLoop]
  | cons v rest ih =>
    intro n hn sha res parsed h
    have hn0 : ¬ n = 0 := by omega
    by_cases hv : v = []
    · subst hv
      rw [List.filter_cons_of_neg (by simp)] at h
      simp only [updateLoop, if_neg hn0]
      rw [if_neg (by simp)]
      exact ih (n + 1) (by omega) sha res parsed h
    · rw [List.filter_cons_of_pos (by simpa using hv)] at h
      simp only [parseAll] at h
      cases hp : parseInfoLine v with
      | error e => rw [hp] at h; exact Except.noConfusion h
      | ok r =>
        rw [hp] at h
        cases hrest : parseAll (rest.filter (fun v => v ≠ [])) with
        | error e => rw [hrest] at h; exact Except.noConfusion h
        | ok rs =>
          rw [hrest] at h
          injection h with h
          subst h
          simp only [updateLoop, if_neg hn0]
          rw [if_pos ⟨by omega, hv⟩, hp]
          show updateLoop (n + 1) sha (res ++ [r]) rest = Except.ok (sha, res ++ r :: rs)
          rw [ih (n + 1) (by omega) sha (res ++ [r]) rs hrest]
          simp

theorem splitLines_ne_nil (l : List Char) : splitLines l ≠ [] := by
  rw [splitLines.eq_def]
  split
  · simp
  · simp
  · simp
  · split <;> simp

theorem updateResourcesOf_characterization (content : List Char) (parsed : List Resource)
    (h : parseAll (((splitLines content).drop 2).filter (fun v => v ≠ [])) = .ok parsed) :
    updateResourcesOf content = .ok (some ((splitLines content).headD []), parsed) := by
  unfold updateResourcesOf
  rcases hl : splitLines content with _ | ⟨l0, _ | ⟨l1, rest⟩⟩
  · exact absurd hl (splitLines_ne_nil content)
  · rw [hl] at h
    rw [show List.drop 2 [l0] = ([] : List (List Char)) from rfl] at h
    simp only [List.filter_nil, parseAll] at h
    injection h with h
    subst h
    simp [updateLoop]
  · rw [hl] at h
    rw [show List.drop 2 (l0 :: l1 :: rest) = rest from rfl] at h
    show updateLoop 2 (some l0) [] rest = .ok (some l0, parsed)
    have hrun := updateLoop_from_two rest 2 (by omega) (some l0) [] parsed h
    simpa using hrun

/-- C8: for a non-empty commit identifier whose `git show` output parses
cleanly, `update` records the first output line as the new `_sha`, builds the
resource list from exactly the non-empty output lines from the third line
onward (each fed to `parseInfoLine`, skipping the second line entirely), and
spawns exactly the one `show --format=%h --name-status` subprocess. -/
theorem c8_update_publishes_hash_and_resources (st : ModelState) (sha out : List Char)
    (parsed : List Resource)
    (hsha : sha ≠ [])
    (hparse : parseAll (((splitLines out).drop 2).filter (fun v => v ≠ [])) = .ok parsed) :
    update st sha out = .ok
      ({ st with sha := some ((splitLines out).headD []), resourceStates := parsed },
        [gitShowArgs sha]) := by
  unfold update
  rw [if_neg hsha, updateResourcesOf_characterization out parsed hparse]

/-- Witness for C8 on the output `"1a2b3c4\n\nM\tf\nD\tg\n"`: the new hash is
the first line and the resources come from lines three and four. -/
theorem c8_update_publishes_hash_and_resources_witness :
    update { sha := none, resourceStates := [] } "HEAD".toList
        "1a2b3c4\n\nM\tf\nD\tg\n".toList =
      .ok ({ sha := some "1a2b3c4".toList,
             resourceStates :=
               [{ file := some ['f'], resourceUri := some ⟨rootPath ++ ['/', 'f']⟩,
                  status := some ['M'] },
                { file := some ['g'], resourceUri := some ⟨rootPath ++ ['/', 'g']⟩,
                  status := some ['D'] }] },
            [gitShowArgs "HEAD".toList]) :=
  c8_update_publishes_hash_and_resources { sha := none, resourceStates := [] }
    "HEAD".toList "1a2b3c4\n\nM\tf\nD\tg\n".toList
    [{ file := some ['f'], resourceUri := some ⟨rootPath ++ ['/', 'f']⟩,
       status := some ['M'] },
     { file := some ['g'], resourceUri := some ⟨rootPath ++ ['/', 'g']⟩,
       status := some ['D'] }] (by decide) (by decide)

theorem handleEvent_benign_settlement (st : GitRunState) (ev : StreamEvent)
    (hb : benign ev = true) : (handleEvent st ev).settlement = st.settlement := by
  cases ev with
  | data chunk => rfl
  | streamEnd => rfl
  | streamError msg => exact absurd hb (by simp [benign])
  | close => exact absurd hb (by simp [benign])

theorem foldl_handleEvent_rejected (l : List StreamEvent) : ∀ (st : GitRunState)
    (msg : List Char), st.settlement = Settled.rejected msg →
    (List.foldl handleEvent st l).settlement = Settled.rejected msg := by
  induction l with
  | nil => intro st msg h; exact h
  | cons ev rest ih =>
    intro st msg h
    apply ih
    cases ev with
    | data chunk => exact h
    | streamEnd => exact h
    | streamError m => show settleReject st.settlement m = _; rw [h]; rfl
    | close => show settleResolve st.settlement = _; rw [h]; rfl

theorem foldl_handleEvent_benign_then_error (pre : List StreamEvent) :
    ∀ (st : GitRunState) (msg : List Char) (post : List StreamEvent),
    st.settlement = Settled.pending →
    (∀ ev ∈ pre, benign ev = true) →
    (List.foldl handleEvent st (pre ++ StreamEvent.streamError msg :: post)).settlement =
      Settled.rejected msg := by
  induction pre with
  | nil =>
    intro st msg post hp _
    simp only [List.nil_append, List.foldl_cons]
    apply foldl_handleEvent_rejected
    show settleReject st.settlement msg = _
    rw [hp]
    rfl
  | cons ev pre ih =>
    intro st msg post hp hben
    simp only [List.cons_append, List.foldl_cons]
    apply ih
    · rw [handleEvent_benign_settlement st ev (hben ev (by simp))]
      exact hp
    · intro x hx
      exact hben x (by simp [hx])

/-- C4: whenever the stdout stream delivers an `error` event — the way a
process failure such as a non-runnable executable reaches `runGitCommand`'s
handlers, per the spec — after only data/`end` events, the returned promise is
rejected with that error and is never resolved successfully, whatever events
(including `close`) follow. -/
theorem c4_stream_error_rejects (pre post : List StreamEvent) (msg : List Char)
    (hpre : ∀ ev ∈ pre, benign ev = true) :
    (runGitCommandOf (pre ++ StreamEvent.streamError msg :: post)).settlement =
        Settled.rejected msg ∧
    (runGitCommandOf (pre ++ StreamEvent.streamError msg :: post)).settlement ≠
        Settled.resolved := by
  have h := foldl_handleEvent_benign_then_error pre
    { content := [], settlement := .pending, endActionCalls := [] } msg post rfl hpre
  exact ⟨h, by rw [show runGitCommandOf (pre ++ StreamEvent.streamError msg :: post) =
    List.foldl handleEvent { content := [], settlement := .pending, endActionCalls := [] }
      (pre ++ StreamEvent.streamError msg :: post) from rfl, h]; simp⟩

/-- Witness for C4: a trace with one data chunk, then a stream error
`"ENOENT"`, then `close` — the promise ends rejected with `"ENOENT"`. -/
theorem c4_stream_error_rejects_witness :
    (runGitCommandOf ([StreamEvent.data ['x']] ++
        StreamEvent.streamError "ENOENT".toList :: [StreamEvent.close])).settlement =
      Settled.rejected "ENOENT".toList ∧
    (runGitCommandOf ([StreamEvent.data ['x']] ++
        StreamEvent.streamError "ENOENT".toList :: [StreamEvent.close])).settlement ≠
      Settled.resolved :=
  c4_stream_error_rejects [StreamEvent.data ['x']] [StreamEvent.close] "ENOENT".toList
    (by decide)

/-- A raw 6-field commit record as laid out between the sentinels by the
`--format` template `%s %h %d %aN %ae %cr`. -/
structure RawRecord where
  subject : List Char
  hash : List Char
  ref : List Char
  author : List Char
  email : List Char
  date : List Char
deriving DecidableEq

/-- The `LogEntry` that a complete record should produce. -/
def RawRecord.toLogEntry (r : RawRecord) : LogEntry :=
  { subject := some r.subject, hash := some r.hash, ref := some r.ref,
    author := some r.author, email := some r.email, date := some r.date }

/-- A complete entry fragment carrying record `r`: non-empty, and split by
the item separator into exactly one leading empty field (discarded at index
0) followed by the six fields of `r`. -/
def completeFrag (r : RawRecord) (frag : List Char) : Prop :=
  frag ≠ [] ∧
  splitOnSep itemSeparator frag =
    [[], r.subject, r.hash, r.ref, r.author, r.email, r.date]

theorem processEntry_complete (r : RawRecord) (frag : List Char)
    (h : completeFrag r frag) : processEntry frag = [r.toLogEntry] := by
  obtain ⟨hne, hsplit⟩ := h
  unfold processEntry
  rw [if_neg hne, hsplit]
  rfl

theorem foldl_append_processEntry (l : List (List Char)) :
    ∀ init : List LogEntry,
    l.foldl (fun acc entry => acc ++ processEntry entry) init =
      init ++ (l.map processEntry).flatten := by
  induction l with
  | nil => intro init; simp
  | cons e rest ih =>
    intro init
    simp only [List.foldl_cons, List.map_cons, List.flatten_cons]
    rw [ih, List.append_assoc]

/-- C6: a blob that the entry separator splits into exactly `K` complete
6-field fragments plus the empty trailing fragment tokenizes to exactly the
`K` corresponding `LogEntry`s, in input order; the trailing empty fragment is
skipped. -/
theorem c6_log_tokenizer_complete_records (content : List Char)
    (frags : List (List Char)) (recs : List RawRecord)
    (hsplit : splitOnSep entrySeparator content = frags ++ [[]])
    (hwf : List.Forall₂ completeFrag recs frags) :
    getLogEntriesOf content = recs.map RawRecord.toLogEntry ∧
    (getLogEntriesOf content).length = recs.length := by
  have hmain : getLogEntriesOf content = recs.map RawRecord.toLogEntry := by
    unfold getLogEntriesOf
    rw [hsplit, foldl_append_processEntry]
    simp only [List.nil_append, List.map_append, List.flatten_append]
    rw [show ([([] : List Char)].map processEntry).flatten = [] from rfl, List.append_nil]
    clear hsplit
    induction hwf with
    | nil => rfl
    | cons hab hrest ih =>
      simp only [List.map_cons, List.flatten_cons]
      rw [processEntry_complete _ _ hab, ih]
      rfl
  exact ⟨hmain, by rw [hmain]; simp⟩

def sampleRecord : RawRecord :=
  { subject := "subj".toList, hash := "abc1234".toList, ref := " (HEAD)".toList,
    author := "Ann".toList, email := "a@x".toList, date := "2 days ago".toList }

def sampleFrag : List Char :=
  itemSeparator ++ "subj".toList ++ itemSeparator ++ "abc1234".toList ++ itemSeparator ++
    " (HEAD)".toList ++ itemSeparator ++ "Ann".toList ++ itemSeparator ++ "a@x".toList ++
    itemSeparator ++ "2 days ago".toList

/-- Witness for C6 on a one-record blob terminated by the entry separator. -/
theorem c6_log_tokenizer_complete_records_witness :
    getLogEntriesOf (sampleFrag ++ entrySeparator) = [sampleRecord.toLogEntry] ∧
    (getLogEntriesOf (sampleFrag ++ entrySeparator)).length = [sampleRecord].length :=
  c6_log_tokenizer_complete_records (sampleFrag ++ entrySeparator) [sampleFrag] [sampleRecord]
    (by decide) (List.Forall₂.cons ⟨by decide, by decide⟩ List.Forall₂.nil)

/-- C9: a non-empty entry fragment with fewer than 6 item-separated fields
after the discarded leading field (at most 6 split parts in total) produces no
`LogEntry` and no error: the sixth-field push is never reached, so the
incomplete record is silently dropped. -/
theorem c9_incomplete_record_dropped (frag : List Char) (hne : frag ≠ [])
    (hlen : (splitOnSep itemSeparator frag).length ≤ 6) :
    processEntry frag = [] := by
  unfold processEntry
  rw [if_neg hne]
  rcases hp : splitOnSep itemSeparator frag with
    _ | ⟨a, _ | ⟨b, _ | ⟨c, _ | ⟨d, _ | ⟨e, _ | ⟨f, _ | ⟨g, rest⟩⟩⟩⟩⟩⟩⟩
  · rfl
  · rfl
  · rfl
  · rfl
  · rfl
  · rfl
  · rfl
  · rw [hp] at hlen
    simp only [List.length_cons] at hlen
    omega

/-- Witness for C9: a fragment with one field after the leading empty field
produces no entry. -/
theorem c9_incomplete_record_dropped_witness :
    processEntry (itemSeparator ++ "abc".toList) = [] :=
  c9_incomplete_record_dropped (itemSeparator ++ "abc".toList) (by decide) (by decide)
